import Mathlib

/-!
Shallow embedding of the etracker announce pipeline (Go sources under
internal/handler, internal/bencode, internal/config, internal/prune) and
proofs about it.

Conventions:
  * Go `int` values are modelled as `ℤ`; `strconv.Atoi` enforces the
    `int64` range, so parsed integers are finite.
  * Byte strings are modelled as `List ℕ` (each entry a byte value);
    Go `string`s that are treated as text are Lean `String`s, converted
    to bytes with `strBytes` (the sources only emit ASCII text).
  * Database and cache effects are modelled by explicit state passing;
    fallible queries are oracles (`Option`/`Bool` parameters).
-/

namespace ETracker

/-- Byte strings (Go `[]byte`): a list of byte values. -/
abbrev Bytes := List ℕ

/-- Bytes of an ASCII Lean string (Go `[]byte(s)` / the bytes written by
`fmt.Fprintf` for a `%s` verb). -/
def strBytes (s : String) : Bytes := s.toList.map Char.toNat

/-! ### Go `strconv.Atoi` (ParseInt base 10, bitSize 64) -/

/-- Value of a run of decimal digits; `none` if empty or any non-digit.
Models the digit loop of Go `strconv.ParseInt` (base 10: no underscores). -/
def digitsVal (l : List Char) : Option ℕ :=
  if l = [] then Option.none
  else
    l.foldl
      (fun acc c =>
        match acc with
        | Option.none => Option.none
        | Option.some n => if c.isDigit then Option.some (n * 10 + (c.toNat - 48)) else Option.none)
      (Option.some 0)

/-- Go `strconv.Atoi`: optional sign, digits, `int64` range check.
Returns `none` exactly when Go returns a non-nil error. -/
def goAtoi (s : String) : Option ℤ :=
  match s.toList with
  | [] => Option.none
  | c :: rest =>
    let signDigits : Bool × List Char :=
      if c = '-' then (true, rest) else if c = '+' then (false, rest) else (false, c :: rest)
    match digitsVal signDigits.2 with
    | Option.none => Option.none
    | Option.some n =>
      let v : ℤ := if signDigits.1 then -(n : ℤ) else (n : ℤ)
      if v < -(2 ^ 63) ∨ (2 ^ 63 - 1) < v then Option.none else Option.some v

/-- Go `strings.Split` with a single-character separator, on the character
list of the string: `split "" = [""]`, `split "a:b" = ["a", "b"]`. -/
def splitOnChar (sep : Char) : List Char → List (List Char)
  | [] => [[]]
  | c :: rest =>
    let r := splitOnChar sep rest
    if c = sep then [] :: r
    else
      match r with
      | [] => [[c]]
      | h :: t => (c :: h) :: t

/-! ### `net.ParseIP(...).To4()` for dotted-quad strings

The handler only reaches `ParseIP` with a colon-free string (the address
was split on `":"` into exactly two parts), so only the IPv4 dotted-quad
branch of Go's parser is reachable; it is modelled here.  Go (since 1.17)
rejects fields with leading zeros. -/

/-- One dotted-quad field, per Go `net.ParseIP`: non-empty, all digits,
no leading zero (unless the field is exactly "0"), value at most 255. -/
def ipv4Field : List Char → Option ℕ
  | [] => Option.none
  | c :: rest =>
    if ¬ (c :: rest).all Char.isDigit then Option.none
    else if c = '0' ∧ rest ≠ [] then Option.none
    else
      let v := (c :: rest).foldl (fun acc d => acc * 10 + (d.toNat - 48)) 0
      if 255 < v then Option.none else Option.some v

/-- Model of `net.ParseIP(s).To4()` for the colon-free strings reachable in
`encodeAddr`: four dot-separated fields, each a valid byte. -/
def parseIPv4 (s : List Char) : Option Bytes :=
  match splitOnChar '.' s with
  | [a, b, c, d] =>
    match ipv4Field a, ipv4Field b, ipv4Field c, ipv4Field d with
    | Option.some x, Option.some y, Option.some z, Option.some w => Option.some [x, y, z, w]
    | _, _, _, _ => Option.none
  | _ => Option.none

/-- Go `binary.BigEndian.PutUint16` into a fresh 2-byte slice:
`[byte(v >> 8), byte(v)]` for `v < 2^16`. -/
def putUint16BE (v : ℕ) : Bytes := [v / 2 ^ 8 % 256, v % 256]

/-- Model of `handler.encodeAddr`: split the request `RemoteAddr` on `":"` (exactly
two parts required), parse the client-supplied port with `Atoi`, truncate
it to `uint16` (Go integer conversion: value modulo 2^16), big-endian
encode it, and append it to the parsed IPv4 address. -/
def encodeAddr (remoteAddr port : String) : Option Bytes :=
  match splitOnChar ':' remoteAddr.toList with
  | [ipString, _] =>
    match goAtoi port with
    | Option.none => Option.none
    | Option.some portInt =>
      let bytesPort := putUint16BE (portInt.emod (2 ^ 16)).toNat
      match parseIPv4 ipString with
      | Option.none => Option.none
      | Option.some parsedIP => Option.some (parsedIP ++ bytesPort)
  | _ => Option.none

/-! ### Announce parsing (`handler.parseAnnounce`) -/

/-- Model of `config.Event`: Go `type Event int` with `iota` values `_`, `Started`,
`Stopped`, `Completed`; the zero value (no/unknown event string) is
`unspecified`. -/
inductive GoEvent
  | unspecified
  | started
  | stopped
  | completed
deriving DecidableEq, Repr

/-- Model of `config.Announce`: the parsed announce. `info_hash` keeps the raw query
string (Go stores `[]byte(info_hash)`), `ip_port` is the 6-byte compact
endpoint. -/
structure Announce where
  announce_key : String
  info_hash : String
  ip_port : Bytes
  numwant : ℤ
  amount_left : ℤ
  downloaded : ℤ
  uploaded : ℤ
  event : GoEvent
deriving DecidableEq, Repr

/-- The part of an `*http.Request` the parser consults: the `{id}` path
value, the remote address, and the URL query (a multimap; `Get` returns
the first value). -/
structure GoRequest where
  pathId : String
  remoteAddr : String
  query : List (String × String)
deriving DecidableEq, Repr

/-- Model of `url.Values.Get`: first value for the key, or `""` when absent. -/
def qget (q : List (String × String)) (key : String) : String :=
  match q.find? (fun e => e.1 = key) with
  | Option.none => ""
  | Option.some e => e.2

/-- The `numwant` handling in `parseAnnounce`: `Atoi` error, a negative
value, or a value above 100 all fall back to 50. -/
def parseNumwant (s : String) : ℤ :=
  match goAtoi s with
  | Option.none => 50
  | Option.some numwant => if numwant < 0 ∨ 100 < numwant then 50 else numwant

/-- The `event` handling in `parseAnnounce`: only the three literal strings
map to events; anything else leaves the zero value. -/
def parseEvent (s : String) : GoEvent :=
  if s = "started" then GoEvent.started
  else if s = "stopped" then GoEvent.stopped
  else if s = "completed" then GoEvent.completed
  else GoEvent.unspecified

/-- Model of `handler.parseAnnounce`: required fields `info_hash`, `port` (via
`encodeAddr`), `left`, `uploaded`, `downloaded`; optional `numwant` and
`event`.  Returns `none` exactly when the Go function returns an error
(answered as a ParseError by the handler). -/
def parseAnnounce (r : GoRequest) : Option Announce :=
  let info_hash := qget r.query "info_hash"
  if info_hash = "" then Option.none
  else
    let port := qget r.query "port"
    if port = "" then Option.none
    else
      match encodeAddr r.remoteAddr port with
      | Option.none => Option.none
      | Option.some ip_port =>
        let left := qget r.query "left"
        if left = "" then Option.none
        else
          match goAtoi left with
          | Option.none => Option.none
          | Option.some amount_left =>
            let uploadedASCII := qget r.query "uploaded"
            if uploadedASCII = "" then Option.none
            else
              match goAtoi uploadedASCII with
              | Option.none => Option.none
              | Option.some uploaded =>
                let downloadedASCII := qget r.query "downloaded"
                if downloadedASCII = "" then Option.none
                else
                  match goAtoi downloadedASCII with
                  | Option.none => Option.none
                  | Option.some downloaded =>
                    Option.some
                      { announce_key := r.pathId
                        info_hash := info_hash
                        ip_port := ip_port
                        numwant := parseNumwant (qget r.query "numwant")
                        amount_left := amount_left
                        downloaded := downloaded
                        uploaded := uploaded
                        event := parseEvent (qget r.query "event") }

/-! ### Bencode producers (`internal/bencode`) -/

/-- Constant `config.Interval`: 45 minutes, in seconds. -/
def Interval : ℕ := 2700

/-- Constant `config.MinInterval`: 30 seconds. -/
def MinInterval : ℕ := 30

/-- Model of `bencode.FailureReason`: `fmt.Fprintf(w, "d14:failure reason%d:%se",
len(msg), msg)`.  The messages the tracker emits are ASCII, so the byte
length equals the character count. -/
def FailureReason (msg : String) : Bytes :=
  strBytes "d14:failure reason" ++ strBytes (Nat.repr (strBytes msg).length)
    ++ strBytes ":" ++ strBytes msg ++ strBytes "e"

/-- Model of `bencode.PeerList`: `fmt.Fprintf(w,
"d8:interval%d:%s12:min interval%d:%s5:peers%d:%se", ...)` where the two
`%d:%s` pairs render `intervalString` and `minIntervalString` (decimal
renderings of the two constants) as bencoded byte-strings, and the last
pair renders the concatenation of the peer entries. -/
def PeerList (peers : List Bytes) : Bytes :=
  let joinedPeers := peers.flatten
  let intervalString := Nat.repr Interval
  let minIntervalString := Nat.repr MinInterval
  strBytes "d8:interval" ++ strBytes (Nat.repr (strBytes intervalString).length)
    ++ strBytes ":" ++ strBytes intervalString
    ++ strBytes "12:min interval" ++ strBytes (Nat.repr (strBytes minIntervalString).length)
    ++ strBytes ":" ++ strBytes minIntervalString
    ++ strBytes "5:peers" ++ strBytes (Nat.repr joinedPeers.length)
    ++ strBytes ":" ++ joinedPeers ++ strBytes "e"

/-- A bencoded integer `i<n>e`. -/
def bencInt (n : ℕ) : Bytes := strBytes "i" ++ strBytes (Nat.repr n) ++ strBytes "e"

/-- Modelled from the spec: the announce-reply shape claimed in C2,
`d8:interval i<N>e 12:min interval i<M>e 5:peers <L>:<bytes> e`, with the
interval and min interval values encoded as bencoded integers.  Kept for
comparison against `PeerList`, which is translated from the source. -/
def specPeerListIntegerForm (peers : List Bytes) : Bytes :=
  strBytes "d8:interval" ++ bencInt Interval
    ++ strBytes "12:min interval" ++ bencInt MinInterval
    ++ strBytes "5:peers" ++ strBytes (Nat.repr peers.flatten.length)
    ++ strBytes ":" ++ peers.flatten ++ strBytes "e"

/-! ### The writer (`handler.writeAnnounce`) on a single (key, info-hash)

The `announces` table has a unique key on `(peers_id, info_hash_id)`, so a
single (announce key, info-hash) pair owns at most one announce row, which
every announce upserts.  The state below is that row plus the peer row's
accumulated totals (`snatched`, `uploaded`, `downloaded` start at 0 by the
schema defaults).  The `infohashes.downloaded` bump on a completed event
touches neither table modelled here. -/

/-- The single `announces` row of a (key, info-hash) pair: the reported
snapshot of the latest upsert. -/
structure AnnRow where
  ip_port : Bytes
  amount_left : ℤ
  uploaded : ℤ
  downloaded : ℤ
  event : GoEvent
deriving DecidableEq, Repr

/-- Peer-row totals plus the pair's announce row (`none` before the first
announce). -/
structure PairState where
  peerSnatched : ℤ
  peerUploaded : ℤ
  peerDownloaded : ℤ
  row : Option AnnRow
deriving DecidableEq, Repr

/-- Fresh state: peer row just created (schema defaults 0), no announce row. -/
def initPairState : PairState :=
  { peerSnatched := 0, peerUploaded := 0, peerDownloaded := 0, row := Option.none }

/-- The `SELECT ... WHERE info_hash = $1 AND announce_key = $2 AND event <>
Stopped ... LIMIT 1` of `writeAnnounce`: the pair's row if it exists and its
event is not `stopped`; no row reads as zeros. -/
def lastReported (st : PairState) : ℤ × ℤ :=
  match st.row with
  | Option.some r => if r.event = GoEvent.stopped then (0, 0) else (r.uploaded, r.downloaded)
  | Option.none => (0, 0)

/-- Model of `handler.writeAnnounce`: read the last non-stopped reported values
(zeros when absent), clamp the deltas at 0, add them (and the snatch
increment) to the peer row, and upsert the announce row with the reported
snapshot. -/
def writeAnnounce (st : PairState) (a : Announce) : PairState :=
  let last := lastReported st
  let upload_change := a.uploaded - last.1
  let download_change := a.downloaded - last.2
  let upload_change := if upload_change < 0 then 0 else upload_change
  let download_change := if download_change < 0 then 0 else download_change
  let completed_snatch : ℤ := if a.event = GoEvent.completed then 1 else 0
  { peerSnatched := st.peerSnatched + completed_snatch
    peerUploaded := st.peerUploaded + upload_change
    peerDownloaded := st.peerDownloaded + download_change
    row := Option.some
      { ip_port := a.ip_port, amount_left := a.amount_left,
        uploaded := a.uploaded, downloaded := a.downloaded, event := a.event } }

/-- A sequence of announces on the pair, starting from the fresh state. -/
def writeTrace (l : List Announce) : PairState :=
  l.foldl writeAnnounce initPairState

/-- Sum of the clamped deltas of a value sequence against a running
baseline: each step contributes `max 0 (v - prev)`, so a reset
(`v < prev`) contributes zero. -/
def deltaSum (prev : ℤ) : List ℤ → ℤ
  | [] => 0
  | v :: vs => max 0 (v - prev) + deltaSum v vs

/-! ### The admission check (`handler.checkAnnounce`)

The Redis cache is an association list from key to value; `cacheGet` is a
`GET` where `none` covers both a miss (`redis.Nil`) and a cache failure
(the code logs and takes the same fallback path), and `cacheSet` is a
`SET` that succeeds (a failed `SET` is only logged).  Database queries are
oracles: `none` models a query error. -/

/-- Cache lookup (`GET`): first binding for the key. -/
def cacheGet (c : List (String × String)) (k : String) : Option String :=
  match c.find? (fun e => e.1 = k) with
  | Option.none => Option.none
  | Option.some e => Option.some e.2

/-- Cache update (`SET` with no expiry): replace any binding for the key. -/
def cacheSet (c : List (String × String)) (k v : String) : List (String × String) :=
  (k, v) :: c.filter (fun e => ¬ e.1 = k)

/-- The three error kinds `checkAnnounce` can surface:
`ErrUntrackedAnnounce`, `ErrInfoHashNotAllowed`, and any other (database)
error. -/
inductive CheckErr
  | untracked
  | notAllowed
  | internal
deriving DecidableEq, Repr

/-- The database answers `checkAnnounce` consults, plus the allowlist
flag.  `none` models a failed query. -/
structure CheckOracles where
  disableAllowlist : Bool
  dbTracked : Option Bool
  dbAllowed : Option Bool
  insertOk : Bool

/-- Second half of `checkAnnounce`: the info-hash check.  With the
allowlist disabled, a cache miss first sets the cache entry to "true" and
then inserts the info-hash row; an insert failure surfaces as an error
(after the cache write).  With the allowlist enabled, a cache miss falls
through to the store and caches the boolean. -/
def checkInfoHash (o : CheckOracles) (a : Announce) (cache : List (String × String)) :
    Except CheckErr Unit × List (String × String) :=
  let ihKey := "info_hash:" ++ a.info_hash
  if o.disableAllowlist then
    match cacheGet cache ihKey with
    | Option.some _ => (Except.ok (), cache)
    | Option.none =>
      let cache1 := cacheSet cache ihKey "true"
      if o.insertOk then (Except.ok (), cache1) else (Except.error CheckErr.internal, cache1)
  else
    match cacheGet cache ihKey with
    | Option.some v =>
      if v = "false" then (Except.error CheckErr.notAllowed, cache) else (Except.ok (), cache)
    | Option.none =>
      match o.dbAllowed with
      | Option.none => (Except.error CheckErr.internal, cache)
      | Option.some allowed =>
        let cache1 := cacheSet cache ihKey (if allowed then "true" else "false")
        if allowed then (Except.ok (), cache1) else (Except.error CheckErr.notAllowed, cache1)

/-- Model of `handler.checkAnnounce`: is the announce key tracked (cache first,
store on a miss, result cached persistently), then the info-hash check. -/
def checkAnnounce (o : CheckOracles) (a : Announce) (cache : List (String × String)) :
    Except CheckErr Unit × List (String × String) :=
  let keyKey := "announce:" ++ a.announce_key
  match cacheGet cache keyKey with
  | Option.some v =>
    if v = "false" then (Except.error CheckErr.untracked, cache)
    else checkInfoHash o a cache
  | Option.none =>
    match o.dbTracked with
    | Option.none => (Except.error CheckErr.internal, cache)
    | Option.some tracked =>
      let cache1 := cacheSet cache keyKey (if tracked then "true" else "false")
      if tracked then checkInfoHash o a cache1
      else (Except.error CheckErr.untracked, cache1)

/-! ### The prune job (`prune.PruneAnnounceKeys`) -/

/-- A `peers` row as the prune job sees it: its announce key, its creation
time, and the `last_announce` instants of its announce rows.  Times are
instants on an abstract integer timeline. -/
structure PeerRow where
  announce_key : String
  created_time : ℤ
  lastAnnounces : List ℤ
deriving DecidableEq, Repr

/-- The `HAVING`/`AND` condition of the prune `DELETE`: no announce at all
(`MAX(last_announce) IS NULL`) or none newer than the cutoff, and the row
itself created before the cutoff.  `cutoff` stands for
`NOW() - INTERVAL '3 months'` (`PruneIntervalMonths`). -/
def pruneCond (cutoff : ℤ) (p : PeerRow) : Bool :=
  (match p.lastAnnounces.max? with
   | Option.none => true
   | Option.some m => m < cutoff)
  && (p.created_time < cutoff)

/-- Model of `prune.PruneAnnounceKeys`: delete the matching peer rows and `UNLINK`
the returned `announce_key` strings — exactly those strings, with no
prefix — from the cache.  Returns the remaining rows and the new cache. -/
def pruneAnnounceKeys (cutoff : ℤ) (peers : List PeerRow)
    (cache : List (String × String)) : List PeerRow × List (String × String) :=
  let keys := (peers.filter (pruneCond cutoff)).map PeerRow.announce_key
  (peers.filter (fun p => ¬ pruneCond cutoff p),
   cache.filter (fun e => ¬ keys.contains e.1))

/-! ### Peer selection (`handler.sendReply` and `rand.Shuffle`) -/

/-- Swap the entries at positions `i` and `j` (the `swap` callback `rand.Shuffle`
receives); out-of-range positions leave the list unchanged. -/
def listSwap (l : List α) (i j : ℕ) : List α :=
  match l[i]?, l[j]? with
  | Option.some a, Option.some b => (l.set i b).set j a
  | _, _ => l

/-- The loop of `rand.Shuffle`: for `i` from `n-1` down to `1`, swap `i`
with `js i`, where `js i` models the random draw `Int63n(i+1)` (so
`js i ≤ i`). -/
def fyAux (js : ℕ → ℕ) : ℕ → List α → List α
  | 0, l => l
  | i + 1, l => fyAux js i (listSwap l (i + 1) (js (i + 1)))

/-- Model of `rand.Shuffle(len(l), swap)`: the Fisher-Yates loop from `len l - 1`
down to `1`. -/
def fisherYates (js : ℕ → ℕ) (l : List α) : List α :=
  fyAux js (l.length - 1) l

/-- The selection step of `handler.sendReply`: when more candidates than
`numToGive` are available, shuffle and truncate (`peers = peers[:numToGive]`);
otherwise return all candidates.  (Go panics when `numToGive` is negative
and `len(peers) > numToGive`; the claims only concern counts `0 ≤ numToGive`.) -/
def sendReplySelect (peers : List Bytes) (numToGive : ℤ) (js : ℕ → ℕ) : List Bytes :=
  if numToGive < (peers.length : ℤ) then (fisherYates js peers).take numToGive.toNat
  else peers

/-! ### The request handler (`handler.PeerHandler`) -/

/-- An `http.ResponseWriter`: Go sends status 200 on the first `Write`
when `WriteHeader` was not called (the handler never calls it). -/
structure RespState where
  sentStatus : Option ℕ
  body : Bytes
deriving DecidableEq, Repr

/-- Model of `w.Write(data)`: commits status 200 if no status was sent yet. -/
def respWrite (w : RespState) (data : Bytes) : RespState :=
  { sentStatus := Option.some (w.sentStatus.getD 200), body := w.body ++ data }

/-- The status the client observes (200 when the handler wrote nothing). -/
def respStatus (w : RespState) : ℕ := w.sentStatus.getD 200

/-- The oracles of a whole announce request: the admission answers, the
selector rows (`none` = query error), the peering algorithm result
(`none` = algorithm error), the shuffle randomness, and whether the
writer's updates succeed. -/
structure HandlerOracles extends CheckOracles where
  selectorRows : Option (List Bytes)
  algoRes : Option ℤ
  js : ℕ → ℕ
  writeOk : Bool

/-- Model of `handler.sendReply`: run the selector query, ask the algorithm for the
count, select, and write the bencoded peer list.  On error nothing is
written and the error is returned (the caller only logs it). -/
def sendReply (o : HandlerOracles) (w : RespState) : RespState × Bool :=
  match o.selectorRows with
  | Option.none => (w, false)
  | Option.some rows =>
    match o.algoRes with
    | Option.none => (w, false)
    | Option.some numToGive => (respWrite w (PeerList (sendReplySelect rows numToGive o.js)), true)

/-- Constant `DefaultTrackerError`. -/
def DefaultTrackerError : String := "tracker error"

/-- The failure message `PeerHandler` selects for a `checkAnnounce` error. -/
def checkErrMsg : CheckErr → String
  | CheckErr.notAllowed => "info_hash not in the allowed list"
  | CheckErr.untracked => "untracked announce key, generate new announce url"
  | CheckErr.internal => DefaultTrackerError

/-- Model of `handler.PeerHandler`: parse (failure → bencoded "error parsing
announce"), admission check (failure → bencoded message), then
`sendReply` (failure only logged) and `writeAnnounce` (failure → bencoded
tracker error, appended after anything already written).  `WriteHeader`
is never called, so every reply carries status 200. -/
def peerHandler (o : HandlerOracles) (r : GoRequest) (cache : List (String × String)) :
    RespState × List (String × String) :=
  let w0 : RespState := { sentStatus := Option.none, body := [] }
  match parseAnnounce r with
  | Option.none => (respWrite w0 (FailureReason "error parsing announce"), cache)
  | Option.some a =>
    match checkAnnounce o.toCheckOracles a cache with
    | (Except.error e, cache1) => (respWrite w0 (FailureReason (checkErrMsg e)), cache1)
    | (Except.ok _, cache1) =>
      let sent := sendReply o w0
      if o.writeOk then (sent.1, cache1)
      else (respWrite sent.1 (FailureReason DefaultTrackerError), cache1)

/-! ### `handler.smoothFunction` (`PeersForGoodSeeds`)

`smoothFunction` computes, in IEEE-754 double arithmetic,
`k = atanh((numWanted - 5 - 0.1) / (numWanted - 5 + 0.1)) / goodSeedCount`
and `ceil(5 + (numWanted - 5) * tanh(k * x))`, finally converted to `int`.
The model below follows the float computation up to the `math.Atanh`
argument: `float01` is the exact value of the double literal `0.1`, and
`rnd` stands for IEEE round-to-nearest, constrained only by the standard
relative-error bound (which holds for every rounding step here, all values
being normal).  Go documents `math.Atanh(x) = NaN` for `x > 1`, and the
final `int(NaN)` conversion is implementation-defined (on amd64 it yields
`-2^63`). -/

/-- The IEEE-754 double nearest to the literal `0.1`. -/
def float01 : ℚ := 3602879701896397 / 2 ^ 55

/-- Property stating `rnd` is an admissible model of rounding a real result to a double:
it is within relative error `2^-50` (true for round-to-nearest on normal
values, whose bound is `2^-53`). -/
def RoundOk (rnd : ℚ → ℚ) : Prop :=
  ∀ q : ℚ, |rnd q - q| ≤ |q| / 2 ^ 50

/-- The float steps of `smoothFunction` up to the argument of
`math.Atanh`: `y_int = float64(minimumPeers) = 5`, `delta = 0.1`, then
`(float64(numWanted) - y_int - delta) / (float64(numWanted) - y_int + delta)`,
each operation rounded. -/
def smoothAtanhArg (rnd : ℚ → ℚ) (numWanted : ℤ) : ℚ :=
  let y_int : ℚ := 5
  let base := rnd ((numWanted : ℚ) - y_int)
  let num := rnd (base - float01)
  let den := rnd (base + float01)
  rnd (num / den)

/-- Constant `minimumPeers` from `handler_algorithms.go`. -/
def minimumPeers : ℤ := 5

/-! ### Concrete inputs used by counterexamples and witnesses -/

/-- An announce request with a 1-byte `info_hash`, a port above 65535 and a
negative `left`. -/
def reqC4 : GoRequest :=
  { pathId := "k", remoteAddr := "1.2.3.4:99",
    query := [("info_hash", "a"), ("port", "70000"), ("left", "-5"),
              ("uploaded", "0"), ("downloaded", "0")] }

/-- A request with an empty query (parse fails at `info_hash`). -/
def reqEmpty : GoRequest := { pathId := "k", remoteAddr := "1.2.3.4:99", query := [] }

/-- An announce under the key `"k"` for info-hash `"h"`. -/
def annK : Announce :=
  { announce_key := "k", info_hash := "h", ip_port := [1, 2, 3, 4, 0, 99],
    numwant := 50, amount_left := 0, downloaded := 0, uploaded := 0,
    event := GoEvent.unspecified }

/-- Store oracles that report the key untracked and the info-hash absent
(the state of the store after a prune removed them). -/
def oraclesGone : CheckOracles :=
  { disableAllowlist := false, dbTracked := Option.some false,
    dbAllowed := Option.some false, insertOk := true }

/-- A peer row for key `"k"`, created at instant 0, with no announces. -/
def peerRowK : PeerRow := { announce_key := "k", created_time := 0, lastAnnounces := [] }

/-- A cache that remembers key `"k"` as tracked and info-hash `"h"` as
allowed, under the prefixed key names `checkAnnounce` uses. -/
def cacheK : List (String × String) := [("announce:k", "true"), ("info_hash:h", "true")]

/-- Handler oracles for a healthy backend (used to instantiate `peerHandler`). -/
def oraclesOk : HandlerOracles :=
  { disableAllowlist := false, dbTracked := Option.some true,
    dbAllowed := Option.some true, insertOk := true,
    selectorRows := Option.some [], algoRes := Option.some 0,
    js := fun _ => 0, writeOk := true }

/-- Announce trace for the delta claims: same pair, uploads 10 then 20. -/
def annUp (u : ℤ) : Announce :=
  { announce_key := "k", info_hash := "h", ip_port := [1, 2, 3, 4, 0, 99],
    numwant := 50, amount_left := 0, downloaded := 0, uploaded := u,
    event := GoEvent.unspecified }

/-! ## Helper lemmas -/

theorem flatten_length_six (peers : List Bytes) (h : ∀ p ∈ peers, p.length = 6) :
    peers.flatten.length = 6 * peers.length := by
  induction peers with
  | nil => simp
  | cons p ps ih =>
    have hp : p.length = 6 := h p (by simp)
    have hps : ∀ q ∈ ps, q.length = 6 := fun q hq => h q (by simp [hq])
    simp [List.flatten_cons, hp, ih hps, Nat.mul_succ, Nat.add_comm]

theorem parseIPv4_length {s : List Char} {ip : Bytes} (h : parseIPv4 s = Option.some ip) :
    ip.length = 4 := by
  unfold parseIPv4 at h
  split at h
  · split at h
    · rw [Option.some.injEq] at h
      rw [← h]
      rfl
    · exact Option.noConfusion h
  · exact Option.noConfusion h

theorem cacheGet_cacheSet (c : List (String × String)) (k v : String) :
    cacheGet (cacheSet c k v) k = Option.some v := by
  simp [cacheGet, cacheSet, List.find?]

theorem respStatus_respWrite (w : RespState) (d : Bytes) :
    respStatus (respWrite w d) = respStatus w := by
  simp [respStatus, respWrite]

/-! ## Claim C2 (bencoded announce reply) -/

/-- Claim C2, counterexample: the reply for an empty peer list does not
carry bencoded-integer interval values; the source encodes
`d8:interval4:270012:min interval2:305:peers0:e`, not
`d8:intervali2700e12:min intervali30e5:peers0:e`. -/
theorem C2_integer_intervals_counterexample :
    PeerList [] ≠ specPeerListIntegerForm []
    ∧ PeerList [] = strBytes "d8:interval4:270012:min interval2:305:peers0:e" := by
  constructor
  · decide
  · decide

/-- Claim C2, amended: every announce reply has the shape
`d8:interval 4:2700 12:min interval 2:30 5:peers <L>:<bytes> e` — the
interval values are bencoded byte-strings (`"2700"`, `"30"`), not
integers — and the peers field is the concatenation of the endpoints
(length `6·k` when each endpoint is 6 bytes). -/
theorem C2_reply_shape_amended (peers : List Bytes) :
    PeerList peers
      = strBytes "d8:interval4:270012:min interval2:305:peers"
        ++ (strBytes (Nat.repr peers.flatten.length)
        ++ (strBytes ":" ++ (peers.flatten ++ strBytes "e")))
    ∧ ((∀ p ∈ peers, p.length = 6) → peers.flatten.length = 6 * peers.length) := by
  constructor
  · show PeerList peers = _
    unfold PeerList
    simp only [strBytes, List.append_assoc]
    rfl
  · exact flatten_length_six peers

/-- Claim C2 witness: the amended theorem at a concrete one-endpoint list. -/
theorem C2_reply_shape_witness :
    ([[10, 0, 0, 1, 31, 144]] : List Bytes).flatten.length = 6 * 1 :=
  (C2_reply_shape_amended [[10, 0, 0, 1, 31, 144]]).2 (by decide)

/-! ## Claim C4 (announce parser validation) -/

/-- Claim C4, counterexample: an announce with a 1-byte `info_hash`, port
70000 and negative `left` is accepted by the parser, not rejected. -/
theorem C4_parser_counterexample :
    (parseAnnounce reqC4).isSome = true
    ∧ (qget reqC4.query "info_hash").length = 1
    ∧ goAtoi (qget reqC4.query "port") = Option.some 70000
    ∧ goAtoi (qget reqC4.query "left") = Option.some (-5) := by
  refine ⟨by decide, by decide, by decide, by decide⟩

/-- Claim C4, amended: the parser fails exactly when a required field is
missing or does not parse: `info_hash` empty, `port` empty, the remote
address/port does not encode (`encodeAddr` fails — malformed address,
non-integer port), or `left`/`uploaded`/`downloaded` empty or
non-integer.  No length check on `info_hash`, no range check on `port`,
and no sign check on the integer fields is performed. -/
theorem C4_parser_failure_amended (r : GoRequest) :
    parseAnnounce r = Option.none ↔
      qget r.query "info_hash" = ""
      ∨ qget r.query "port" = ""
      ∨ encodeAddr r.remoteAddr (qget r.query "port") = Option.none
      ∨ qget r.query "left" = ""
      ∨ goAtoi (qget r.query "left") = Option.none
      ∨ qget r.query "uploaded" = ""
      ∨ goAtoi (qget r.query "uploaded") = Option.none
      ∨ qget r.query "downloaded" = ""
      ∨ goAtoi (qget r.query "downloaded") = Option.none := by
  by_cases h1 : qget r.query "info_hash" = ""
  · simp [parseAnnounce, h1]
  · by_cases h2 : qget r.query "port" = ""
    · simp [parseAnnounce, h1, h2]
    · rcases h3 : encodeAddr r.remoteAddr (qget r.query "port") with _ | ip
      · simp [parseAnnounce, h1, h2, h3]
      · by_cases h4 : qget r.query "left" = ""
        · simp [parseAnnounce, h1, h2, h3, h4]
        · rcases h5 : goAtoi (qget r.query "left") with _ | vl
          · simp [parseAnnounce, h1, h2, h3, h4, h5]
          · by_cases h6 : qget r.query "uploaded" = ""
            · simp [parseAnnounce, h1, h2, h3, h4, h5, h6]
            · rcases h7 : goAtoi (qget r.query "uploaded") with _ | vu
              · simp [parseAnnounce, h1, h2, h3, h4, h5, h6, h7]
              · by_cases h8 : qget r.query "downloaded" = ""
                · simp [parseAnnounce, h1, h2, h3, h4, h5, h6, h7, h8]
                · rcases h9 : goAtoi (qget r.query "downloaded") with _ | vd
                  · simp [parseAnnounce, h1, h2, h3, h4, h5, h6, h7, h8, h9]
                  · simp [parseAnnounce, h1, h2, h3, h4, h5, h6, h7, h8, h9]

/-! ## Claim C8 (numwant clamping) -/

/-- Claim C8: the parsed `numwant` always lies in [0, 100]; a missing,
unparsable or out-of-range value defaults to 50, an in-range value is kept
exactly; and a successful parse stores exactly this value in the
announce. -/
theorem C8_numwant_clamped :
    (∀ s : String,
      (0 ≤ parseNumwant s ∧ parseNumwant s ≤ 100)
      ∧ (goAtoi s = Option.none → parseNumwant s = 50)
      ∧ (∀ v : ℤ, goAtoi s = Option.some v →
          ((0 ≤ v ∧ v ≤ 100) → parseNumwant s = v)
          ∧ ((v < 0 ∨ 100 < v) → parseNumwant s = 50)))
    ∧ (∀ (r : GoRequest) (a : Announce), parseAnnounce r = Option.some a →
        a.numwant = parseNumwant (qget r.query "numwant")) := by
  constructor
  · intro s
    refine ⟨?_, ?_, ?_⟩
    · unfold parseNumwant
      rcases goAtoi s with _ | v
      · norm_num
      · by_cases hv : v < 0 ∨ 100 < v
        · simp [hv]
        · simp only [hv, if_false]
          omega
    · intro h; simp [parseNumwant, h]
    · intro v hv
      constructor
      · intro hin
        simp only [parseNumwant, hv]
        have : ¬ (v < 0 ∨ 100 < v) := by omega
        simp [this]
      · intro hout
        simp [parseNumwant, hv, hout]
  · intro r a h
    by_cases h1 : qget r.query "info_hash" = ""
    · simp [parseAnnounce, h1] at h
    · by_cases h2 : qget r.query "port" = ""
      · simp [parseAnnounce, h1, h2] at h
      · rcases h3 : encodeAddr r.remoteAddr (qget r.query "port") with _ | ip
        · simp [parseAnnounce, h1, h2, h3] at h
        · by_cases h4 : qget r.query "left" = ""
          · simp [parseAnnounce, h1, h2, h3, h4] at h
          · rcases h5 : goAtoi (qget r.query "left") with _ | vl
            · simp [parseAnnounce, h1, h2, h3, h4, h5] at h
            · by_cases h6 : qget r.query "uploaded" = ""
              · simp [parseAnnounce, h1, h2, h3, h4, h5, h6] at h
              · rcases h7 : goAtoi (qget r.query "uploaded") with _ | vu
                · simp [parseAnnounce, h1, h2, h3, h4, h5, h6, h7] at h
                · by_cases h8 : qget r.query "downloaded" = ""
                  · simp [parseAnnounce, h1, h2, h3, h4, h5, h6, h7, h8] at h
                  · rcases h9 : goAtoi (qget r.query "downloaded") with _ | vd
                    · simp [parseAnnounce, h1, h2, h3, h4, h5, h6, h7, h8, h9] at h
                    · simp only [parseAnnounce, h1, h2, h3, h4, h5, h6, h7, h8, h9,
                        if_false, Option.some.injEq] at h
                      rw [← h]

/-- Claim C8 witness: concrete values — 7 is kept, 101 and a missing value
default to 50. -/
theorem C8_numwant_witness :
    parseNumwant "7" = 7 ∧ parseNumwant "101" = 50 ∧ parseNumwant "" = 50 :=
  ⟨((C8_numwant_clamped.1 "7").2.2 7 (by decide)).1 (by decide),
   ((C8_numwant_clamped.1 "101").2.2 101 (by decide)).2 (by decide),
   (C8_numwant_clamped.1 "").2.1 (by decide)⟩

/-! ## Claim C9 (port truncation in encodeAddr) -/

/-- Claim C9: any port string that parses as an integer `p` is accepted by
`encodeAddr` (given a well-formed remote address); the endpoint has 6
bytes, and its last two bytes are `p mod 2^16` in big-endian. -/
theorem C9_port_truncation (remoteAddr portStr : String) (ipChars rest : List Char)
    (ip : Bytes) (p : ℤ)
    (hsplit : splitOnChar ':' remoteAddr.toList = [ipChars, rest])
    (hip : parseIPv4 ipChars = Option.some ip)
    (hport : goAtoi portStr = Option.some p) :
    encodeAddr remoteAddr portStr
      = Option.some (ip ++ putUint16BE (p.emod (2 ^ 16)).toNat)
    ∧ (ip ++ putUint16BE (p.emod (2 ^ 16)).toNat).length = 6
    ∧ 0 ≤ p.emod (2 ^ 16) ∧ p.emod (2 ^ 16) < 2 ^ 16
    ∧ ((p.emod (2 ^ 16)).toNat / 2 ^ 8 % 256) * 2 ^ 8 + (p.emod (2 ^ 16)).toNat % 256
        = (p.emod (2 ^ 16)).toNat := by
  have hnn : (0 : ℤ) ≤ p.emod (2 ^ 16) := Int.emod_nonneg p (by norm_num)
  have hlt : p.emod (2 ^ 16) < 2 ^ 16 := Int.emod_lt_of_pos p (by norm_num)
  refine ⟨?_, ?_, hnn, hlt, ?_⟩
  · unfold encodeAddr
    simp only [hsplit, hport, hip]
  · have : ip.length = 4 := parseIPv4_length hip
    simp [putUint16BE, this]
  · have hlt' : (p.emod (2 ^ 16)).toNat < 2 ^ 16 := by omega
    have hdiv : (p.emod (2 ^ 16)).toNat / 2 ^ 8 < 256 := by omega
    rw [Nat.mod_eq_of_lt hdiv]
    omega

/-- Claim C9 witness: port 65536 encodes as bytes `[0, 0]` and port -1 as
`[255, 255]`. -/
theorem C9_port_truncation_witness :
    encodeAddr "1.2.3.4:99" "65536" = Option.some [1, 2, 3, 4, 0, 0]
    ∧ encodeAddr "1.2.3.4:99" "-1" = Option.some [1, 2, 3, 4, 255, 255] :=
  ⟨((C9_port_truncation "1.2.3.4:99" "65536" "1.2.3.4".toList "99".toList
      [1, 2, 3, 4] 65536 (by decide) (by decide) (by decide)).1).trans (by decide),
   ((C9_port_truncation "1.2.3.4:99" "-1" "1.2.3.4".toList "99".toList
      [1, 2, 3, 4] (-1) (by decide) (by decide) (by decide)).1).trans (by decide)⟩

/-! ## Claim C10 (cache written before the store insert) -/

/-- Claim C10: with the allowlist disabled, a cache miss on the info-hash
writes "true" to the cache before the store insert; when the insert then
fails the check returns an error while the cache retains the "true"
entry. -/
theorem C10_cache_not_rolled_back (o : CheckOracles) (a : Announce)
    (cache : List (String × String))
    (hAllow : o.disableAllowlist = true)
    (hTracked : cacheGet cache ("announce:" ++ a.announce_key) = Option.some "true")
    (hMiss : cacheGet cache ("info_hash:" ++ a.info_hash) = Option.none)
    (hIns : o.insertOk = false) :
    checkAnnounce o a cache
      = (Except.error CheckErr.internal, cacheSet cache ("info_hash:" ++ a.info_hash) "true")
    ∧ cacheGet (checkAnnounce o a cache).2 ("info_hash:" ++ a.info_hash)
        = Option.some "true" := by
  have hmain : checkAnnounce o a cache
      = (Except.error CheckErr.internal,
         cacheSet cache ("info_hash:" ++ a.info_hash) "true") := by
    unfold checkAnnounce checkInfoHash
    simp [hTracked, hAllow, hMiss, hIns]
  refine ⟨hmain, ?_⟩
  rw [hmain]
  exact cacheGet_cacheSet cache ("info_hash:" ++ a.info_hash) "true"

/-- Claim C10 witness: the theorem at a concrete cache missing the
info-hash, with a failing insert. -/
theorem C10_cache_not_rolled_back_witness :
    checkAnnounce
        { disableAllowlist := true, dbTracked := Option.some true,
          dbAllowed := Option.some true, insertOk := false }
        annK [("announce:k", "true")]
      = (Except.error CheckErr.internal,
         cacheSet [("announce:k", "true")] "info_hash:h" "true") :=
  (C10_cache_not_rolled_back
    { disableAllowlist := true, dbTracked := Option.some true,
      dbAllowed := Option.some true, insertOk := false }
    annK [("announce:k", "true")] (by decide) (by decide) (by decide) (by decide)).1

/-! ## Claim C6 (prune does not unlink the consulted cache key) -/

/-- Helper for C1: the writer adds exactly the clamped deltas against the
stored row (zeros when absent or stopped), for any starting state. -/
theorem foldl_writeAnnounce_spec (l : List Announce) :
    ∀ st : PairState, (∀ a ∈ l, a.event ≠ GoEvent.stopped) →
      (l.foldl writeAnnounce st).peerUploaded
          = st.peerUploaded + deltaSum (lastReported st).1 (l.map Announce.uploaded)
      ∧ (l.foldl writeAnnounce st).peerDownloaded
          = st.peerDownloaded + deltaSum (lastReported st).2 (l.map Announce.downloaded) := by
  induction l with
  | nil => intro st _; simp [deltaSum]
  | cons a l ih =>
    intro st hev
    have ha : a.event ≠ GoEvent.stopped := hev a (by simp)
    have hl : ∀ b ∈ l, b.event ≠ GoEvent.stopped := fun b hb => hev b (by simp [hb])
    obtain ⟨ihu, ihd⟩ := ih (writeAnnounce st a) hl
    have hrow : lastReported (writeAnnounce st a) = (a.uploaded, a.downloaded) := by
      simp [writeAnnounce, lastReported, ha]
    have hup : (writeAnnounce st a).peerUploaded
        = st.peerUploaded + max 0 (a.uploaded - (lastReported st).1) := by
      simp only [writeAnnounce]
      split <;> omega
    have hdn : (writeAnnounce st a).peerDownloaded
        = st.peerDownloaded + max 0 (a.downloaded - (lastReported st).2) := by
      simp only [writeAnnounce]
      split <;> omega
    constructor
    · rw [List.foldl_cons, ihu, hrow, List.map_cons, deltaSum, hup]
      ring
    · rw [List.foldl_cons, ihd, hrow, List.map_cons, deltaSum, hdn]
      ring

/-- Helper for C1: on a non-decreasing value list starting at or above the
baseline, the clamped deltas telescope to `last - prev`. -/
theorem deltaSum_eq_getLast (l : List ℤ) (hne : l ≠ []) :
    ∀ prev : ℤ, List.Chain' (· ≤ ·) l → prev ≤ l.head hne →
      deltaSum prev l = l.getLast hne - prev := by
  induction l with
  | nil => simp at hne
  | cons v vs ih =>
    intro prev hchain hfirst
    rw [List.head_cons] at hfirst
    cases vs with
    | nil =>
      simp only [deltaSum, List.getLast_singleton]
      omega
    | cons w ws =>
      have hvw : v ≤ w := (List.chain'_cons.mp hchain).1
      have hch : List.Chain' (· ≤ ·) (w :: ws) := (List.chain'_cons.mp hchain).2
      have hrec := ih (by simp) v hch (by rw [List.head_cons]; exact hvw)
      rw [List.getLast_cons (by simp : (w :: ws) ≠ [])]
      simp only [deltaSum] at hrec ⊢
      omega

/-! ## Claim C1 (delta accumulation) -/

/-- Claim C1, counterexample: on announces reporting uploads 10 then 20 on
a fresh pair, the peer row holds 20, not 20 - 10 = 10: a first announce
has no baseline and contributes its entire reported value. -/
theorem C1_delta_counterexample :
    (writeTrace [annUp 10, annUp 20]).peerUploaded ≠ 20 - 10
    ∧ (writeTrace [annUp 10, annUp 20]).peerUploaded = 20 := by
  refine ⟨by decide, by decide⟩

/-- Claim C1, amended: starting from no prior announce row, the peer row
accumulates the clamped deltas with a zero baseline — so each reset
contributes zero — and for a non-decreasing, non-negative value sequence
v0 ≤ … ≤ vn the total is vn (not vn - v0: the first announce contributes
all of v0).  Announces with event `stopped` are excluded (a stopped row
resets the baseline). -/
theorem C1_delta_accumulation_amended (l : List Announce) (hne : l ≠ [])
    (hev : ∀ a ∈ l, a.event ≠ GoEvent.stopped) :
    ((writeTrace l).peerUploaded = deltaSum 0 (l.map Announce.uploaded)
      ∧ (writeTrace l).peerDownloaded = deltaSum 0 (l.map Announce.downloaded))
    ∧ (List.Chain' (· ≤ ·) (l.map Announce.uploaded) → 0 ≤ (l.head hne).uploaded →
        (writeTrace l).peerUploaded = (l.getLast hne).uploaded)
    ∧ (List.Chain' (· ≤ ·) (l.map Announce.downloaded) → 0 ≤ (l.head hne).downloaded →
        (writeTrace l).peerDownloaded = (l.getLast hne).downloaded) := by
  have hbase : lastReported initPairState = (0, 0) := rfl
  obtain ⟨hu, hd⟩ := foldl_writeAnnounce_spec l initPairState hev
  rw [hbase] at hu hd
  have hmapne : l.map Announce.uploaded ≠ [] := by simp [hne]
  have hmapne' : l.map Announce.downloaded ≠ [] := by simp [hne]
  refine ⟨⟨by simpa [writeTrace, initPairState] using hu,
          by simpa [writeTrace, initPairState] using hd⟩, ?_, ?_⟩
  · intro hchain h0
    have hhead : (l.map Announce.uploaded).head hmapne = (l.head hne).uploaded :=
      List.head_map Announce.uploaded l hmapne
    have hlast : (l.map Announce.uploaded).getLast hmapne = (l.getLast hne).uploaded :=
      List.getLast_map Announce.uploaded l hmapne
    have := deltaSum_eq_getLast (l.map Announce.uploaded) hmapne 0 hchain
      (by rw [hhead]; exact h0)
    rw [this, hlast] at hu
    simpa [writeTrace, initPairState] using hu
  · intro hchain h0
    have hhead : (l.map Announce.downloaded).head hmapne' = (l.head hne).downloaded :=
      List.head_map Announce.downloaded l hmapne'
    have hlast : (l.map Announce.downloaded).getLast hmapne' = (l.getLast hne).downloaded :=
      List.getLast_map Announce.downloaded l hmapne'
    have := deltaSum_eq_getLast (l.map Announce.downloaded) hmapne' 0 hchain
      (by rw [hhead]; exact h0)
    rw [this, hlast] at hd
    simpa [writeTrace, initPairState] using hd

/-- Claim C1 witness: the amended theorem on the concrete trace
uploads 10 then 20: the peer row holds the last reported value 20. -/
theorem C1_delta_accumulation_witness :
    (writeTrace [annUp 10, annUp 20]).peerUploaded = ([annUp 10, annUp 20].getLast
      (by decide)).uploaded :=
  (C1_delta_accumulation_amended [annUp 10, annUp 20] (by decide) (by decide)).2.1
    (by simp [annUp]) (by decide)

/-- Claim C6 is false of the code: the prune job unlinks the bare
`announce_key` strings, while the admission check consults
`"announce:" ++ key`.  At a concrete pruned key the consulted entry
survives the prune and the key is still admitted from the cache, even
though the store no longer tracks it. -/
theorem C6_prune_cache_stale :
    pruneAnnounceKeys 1 [peerRowK] cacheK = ([], cacheK)
    ∧ cacheGet cacheK ("announce:" ++ annK.announce_key) = Option.some "true"
    ∧ (checkAnnounce oraclesGone annK cacheK).1 = Except.ok () := by
  refine ⟨by decide, by decide, rfl⟩

/-! ## Claim C7 (rejections are 200 with a bencoded failure body) -/

/-- Claim C7: every reply of the peer handler carries status 200 (it never
calls `WriteHeader`), and a rejected announce's body is exactly the
bencoded failure dictionary with the message of its error kind: "error
parsing announce" for a parse failure, "untracked announce key, generate
new announce url" for an unissued key, "info_hash not in the allowed
list" for an allowlist rejection, and "tracker error" for any other
admission failure. -/
theorem C7_reject_replies (o : HandlerOracles) (r : GoRequest)
    (cache : List (String × String)) :
    respStatus (peerHandler o r cache).1 = 200
    ∧ (parseAnnounce r = Option.none →
        (peerHandler o r cache).1.body = FailureReason "error parsing announce")
    ∧ (∀ a, parseAnnounce r = Option.some a →
        (checkAnnounce o.toCheckOracles a cache).1 = Except.error CheckErr.untracked →
        (peerHandler o r cache).1.body
          = FailureReason "untracked announce key, generate new announce url")
    ∧ (∀ a, parseAnnounce r = Option.some a →
        (checkAnnounce o.toCheckOracles a cache).1 = Except.error CheckErr.notAllowed →
        (peerHandler o r cache).1.body = FailureReason "info_hash not in the allowed list")
    ∧ (∀ a, parseAnnounce r = Option.some a →
        (checkAnnounce o.toCheckOracles a cache).1 = Except.error CheckErr.internal →
        (peerHandler o r cache).1.body = FailureReason DefaultTrackerError) := by
  rcases hp : parseAnnounce r with _ | a
  · refine ⟨?_, ?_, ?_, ?_, ?_⟩
    · simp [peerHandler, hp, respStatus, respWrite]
    · intro _; simp [peerHandler, hp, respWrite]
    · intro a ha; exact Option.noConfusion ha
    · intro a ha; exact Option.noConfusion ha
    · intro a ha; exact Option.noConfusion ha
  · rcases hc : checkAnnounce o.toCheckOracles a cache with ⟨res, c1⟩
    rcases res with e | u
    · refine ⟨?_, ?_, ?_, ?_, ?_⟩
      · simp [peerHandler, hp, hc, respStatus, respWrite]
      · intro h; exact Option.noConfusion h
      · intro a' ha' he
        obtain rfl : a = a' := by injection ha'
        rw [hc] at he
        simp only [Except.error.injEq] at he
        subst he
        simp [peerHandler, hp, hc, respWrite, checkErrMsg]
      · intro a' ha' he
        obtain rfl : a = a' := by injection ha'
        rw [hc] at he
        simp only [Except.error.injEq] at he
        subst he
        simp [peerHandler, hp, hc, respWrite, checkErrMsg]
      · intro a' ha' he
        obtain rfl : a = a' := by injection ha'
        rw [hc] at he
        simp only [Except.error.injEq] at he
        subst he
        simp [peerHandler, hp, hc, respWrite, checkErrMsg]
    · refine ⟨?_, ?_, ?_, ?_, ?_⟩
      · rcases hsel : o.selectorRows with _ | rows
        · cases hw : o.writeOk <;>
            simp [peerHandler, hp, hc, sendReply, hsel, hw, respStatus, respWrite]
        · rcases halgo : o.algoRes with _ | n <;> cases hw : o.writeOk <;>
            simp [peerHandler, hp, hc, sendReply, hsel, halgo, hw, respStatus, respWrite]
      · intro h; exact Option.noConfusion h
      · intro a' ha' he
        obtain rfl : a = a' := by injection ha'
        rw [hc] at he
        exact Except.noConfusion he
      · intro a' ha' he
        obtain rfl : a = a' := by injection ha'
        rw [hc] at he
        exact Except.noConfusion he
      · intro a' ha' he
        obtain rfl : a = a' := by injection ha'
        rw [hc] at he
        exact Except.noConfusion he

/-- Claim C7 witness: a request with an empty query is rejected with
status 200 and the parse-failure body. -/
theorem C7_reject_replies_witness :
    respStatus (peerHandler oraclesOk reqEmpty []).1 = 200
    ∧ (peerHandler oraclesOk reqEmpty []).1.body = FailureReason "error parsing announce" :=
  ⟨(C7_reject_replies oraclesOk reqEmpty []).1,
   (C7_reject_replies oraclesOk reqEmpty []).2.1 (by decide)⟩

/-! ## Helper lemmas for C5: the Fisher-Yates loop of `rand.Shuffle` -/

/-- Prepending the element stored at position `m` to `t.set m x` is a
permutation of prepending `x` to `t`. -/
theorem swapCons (t : List α) (m : ℕ) (x b : α) (h : t[m]? = Option.some b) :
    (b :: t.set m x).Perm (x :: t) := by
  induction t generalizing m with
  | nil => simp at h
  | cons y t' ih =>
    cases m with
    | zero =>
      rw [List.getElem?_cons_zero, Option.some.injEq] at h
      subst h
      simpa using List.Perm.swap x y t'
    | succ k =>
      rw [List.getElem?_cons_succ] at h
      have hrec := ih k h
      simp only [List.set_cons_succ]
      have s1 : (b :: y :: t'.set k x).Perm (y :: b :: t'.set k x) := List.Perm.swap y b _
      have s2 : (y :: b :: t'.set k x).Perm (y :: x :: t') := List.Perm.cons y hrec
      have s3 : (y :: x :: t').Perm (x :: y :: t') := List.Perm.swap x y t'
      exact (s1.trans s2).trans s3

/-- Writing each of two stored values over the other's position permutes
the list. -/
theorem set_set_perm (l : List α) (i j : ℕ) (a b : α)
    (hi : l[i]? = Option.some a) (hj : l[j]? = Option.some b) :
    ((l.set i b).set j a).Perm l := by
  induction l generalizing i j with
  | nil => simp at hi
  | cons y t ih =>
    cases i with
    | zero =>
      rw [List.getElem?_cons_zero, Option.some.injEq] at hi
      subst hi
      cases j with
      | zero => simp
      | succ k =>
        rw [List.getElem?_cons_succ] at hj
        simp only [List.set_cons_zero, List.set_cons_succ]
        exact swapCons t k y b hj
    | succ n =>
      rw [List.getElem?_cons_succ] at hi
      cases j with
      | zero =>
        rw [List.getElem?_cons_zero, Option.some.injEq] at hj
        subst hj
        simp only [List.set_cons_succ, List.set_cons_zero]
        exact swapCons t n y a hi
      | succ k =>
        rw [List.getElem?_cons_succ] at hj
        simp only [List.set_cons_succ]
        exact List.Perm.cons y (ih n k hi hj)

theorem listSwap_perm (l : List α) (i j : ℕ) : (listSwap l i j).Perm l := by
  unfold listSwap
  split
  · next _ _ a b hi hj => exact set_set_perm l i j a b hi hj
  · exact List.Perm.refl l

theorem listSwap_length (l : List α) (i j : ℕ) : (listSwap l i j).length = l.length := by
  unfold listSwap
  split <;> simp

theorem listSwap_getElem?_ne (l : List α) (i j k : ℕ) (hki : k ≠ i) (hkj : k ≠ j) :
    (listSwap l i j)[k]? = l[k]? := by
  unfold listSwap
  split
  · next _ _ a b hi hj =>
    rw [List.getElem?_set_ne (Ne.symm hkj), List.getElem?_set_ne (Ne.symm hki)]
  · rfl

theorem listSwap_getElem?_left (l : List α) (i j : ℕ) (hi : i < l.length)
    (hj : j < l.length) : (listSwap l i j)[i]? = l[j]? := by
  unfold listSwap
  split
  · next _ _ a b ha hb =>
    by_cases hij : j = i
    · subst hij
      rw [List.getElem?_set_eq_of_lt a (by simpa using hj), ha]
    · rw [List.getElem?_set_ne hij, List.getElem?_set_eq_of_lt b (by simpa using hi), hb]
  · next _ _ hcontra =>
    exact absurd (hcontra (l.get ⟨i, hi⟩) (l.get ⟨j, hj⟩)
      (List.getElem?_eq_getElem hi) (List.getElem?_eq_getElem hj)) (by simp)

theorem fyAux_length (js : ℕ → ℕ) (i : ℕ) (l : List α) :
    (fyAux js i l).length = l.length := by
  induction i generalizing l with
  | zero => rfl
  | succ n ih => simp [fyAux, ih, listSwap_length]

theorem fyAux_perm (js : ℕ → ℕ) (i : ℕ) (l : List α) : (fyAux js i l).Perm l := by
  induction i generalizing l with
  | zero => exact List.Perm.refl l
  | succ n ih => exact (ih _).trans (listSwap_perm l (n + 1) (js (n + 1)))

/-- The loop of `rand.Shuffle` permutes the list (for any draws). -/
theorem fisherYates_perm (js : ℕ → ℕ) (l : List α) : (fisherYates js l).Perm l :=
  fyAux_perm js (l.length - 1) l

/-- Positions above the loop counter are never touched. -/
theorem fyAux_getElem?_high (js : ℕ → ℕ) (hjs : ∀ m, js m ≤ m) (i : ℕ) :
    ∀ (l : List α) (k : ℕ), i < k → (fyAux js i l)[k]? = l[k]? := by
  induction i with
  | zero => intro l k _; rfl
  | succ n ih =>
    intro l k hk
    simp only [fyAux]
    rw [ih _ k (by omega)]
    exact listSwap_getElem?_ne l (n + 1) (js (n + 1)) k (by omega)
      (by have := hjs (n + 1); omega)

/-- The first swap decides the top position: it receives the element drawn
at index `js (i+1)`. -/
theorem fyAux_getElem?_top (js : ℕ → ℕ) (hjs : ∀ m, js m ≤ m) (i : ℕ) (l : List α)
    (hlen : i + 1 < l.length) :
    (fyAux js (i + 1) l)[i + 1]? = l[js (i + 1)]? := by
  simp only [fyAux]
  rw [fyAux_getElem?_high js hjs i _ (i + 1) (by omega)]
  exact listSwap_getElem?_left l (i + 1) (js (i + 1)) hlen
    (by have := hjs (i + 1); omega)

theorem fyAux_congr (js js' : ℕ → ℕ) (i : ℕ) (l : List α)
    (h : ∀ m, 1 ≤ m → m ≤ i → js m = js' m) : fyAux js i l = fyAux js' i l := by
  induction i generalizing l with
  | zero => rfl
  | succ n ih =>
    simp only [fyAux]
    rw [h (n + 1) (by omega) (by omega)]
    exact ih _ (fun m h1 h2 => h m h1 (by omega))

/-- Distinct draw sequences produce distinct shuffles of a duplicate-free
list: the draws are recoverable from the result. -/
theorem fyAux_inj [DecidableEq α] : ∀ (i : ℕ) (l : List α), l.Nodup → i < l.length →
    ∀ js js' : ℕ → ℕ, (∀ m, js m ≤ m) → (∀ m, js' m ≤ m) →
      fyAux js i l = fyAux js' i l → ∀ m, 1 ≤ m → m ≤ i → js m = js' m := by
  intro i
  induction i with
  | zero => intro l _ _ js js' _ _ _ m h1 h2; omega
  | succ n ih =>
    intro l hnd hlen js js' hb hb' heq m h1 h2
    have htop : l[js (n + 1)]? = l[js' (n + 1)]? := by
      have e1 := fyAux_getElem?_top js hb n l hlen
      have e2 := fyAux_getElem?_top js' hb' n l hlen
      rw [← e1, ← e2, heq]
    have hji : js (n + 1) = js' (n + 1) :=
      List.getElem?_inj (by have := hb (n + 1); omega) hnd htop
    by_cases hm : m = n + 1
    · rw [hm, hji]
    · have heq' : fyAux js n (listSwap l (n + 1) (js (n + 1)))
          = fyAux js' n (listSwap l (n + 1) (js' (n + 1))) := heq
      rw [← hji] at heq'
      exact ih (listSwap l (n + 1) (js (n + 1)))
        ((listSwap_perm l (n + 1) (js (n + 1))).symm.nodup hnd)
        (by rw [listSwap_length]; omega) js js' hb hb' heq' m h1 (by omega)

/-- Every permutation of a duplicate-free list is produced by some draw
sequence: the shuffle reaches each ordering. -/
theorem fyAux_surj [DecidableEq α] : ∀ (i : ℕ) (l r : List α), l.Nodup → i < l.length →
    r.Perm l → (∀ k, i < k → r[k]? = l[k]?) →
    ∃ js : ℕ → ℕ, (∀ m, js m ≤ m) ∧ fyAux js i l = r := by
  intro i
  induction i with
  | zero =>
    intro l r hnd hlen hperm hagree
    refine ⟨fun _ => 0, fun m => Nat.zero_le m, ?_⟩
    show l = r
    rcases l with _ | ⟨x, t⟩
    · simp at hlen
    rcases r with _ | ⟨y, s⟩
    · have := hperm.length_eq
      simp at this
    have hst : s = t := by
      apply List.ext_getElem?
      intro m
      have := hagree (m + 1) (by omega)
      simpa [List.getElem?_cons_succ] using this
    subst hst
    have hyx : y = x := by
      by_contra hne
      have hcount := (List.perm_iff_count.mp hperm) x
      rw [List.count_cons_self, List.count_cons_of_ne (by exact fun hxy => hne hxy.symm)] at hcount
      omega
    rw [hyx]
  | succ n ih =>
    intro l r hnd hlen hperm hagree
    have hlenr : r.length = l.length := hperm.length_eq
    have hn1r : n + 1 < r.length := by omega
    have hmem : r.get ⟨n + 1, hn1r⟩ ∈ l := hperm.subset (List.get_mem r (n + 1) hn1r)
    obtain ⟨j, hjlen, hjval⟩ := List.mem_iff_getElem.mp hmem
    have hrval : r[n + 1]? = Option.some (r.get ⟨n + 1, hn1r⟩) := by
      rw [List.getElem?_eq_getElem hn1r]
      rfl
    have hlval : l[j]? = Option.some (r.get ⟨n + 1, hn1r⟩) := by
      rw [List.getElem?_eq_getElem hjlen, hjval]
    have hrnd : r.Nodup := hperm.symm.nodup hnd
    have hj_le : j ≤ n + 1 := by
      by_contra hgt
      push_neg at hgt
      have hsame : r[n + 1]? = r[j]? := by
        rw [hagree j (by omega), hlval, hrval]
      have := List.getElem?_inj hn1r hrnd hsame
      omega
    have hl1perm : (listSwap l (n + 1) j).Perm l := listSwap_perm l (n + 1) j
    have hl1nd : (listSwap l (n + 1) j).Nodup := hl1perm.symm.nodup hnd
    have hl1len : (listSwap l (n + 1) j).length = l.length := listSwap_length l (n + 1) j
    have hagree1 : ∀ k, n < k → r[k]? = (listSwap l (n + 1) j)[k]? := by
      intro k hk
      by_cases hkeq : k = n + 1
      · subst hkeq
        rw [listSwap_getElem?_left l (n + 1) j (by omega) (by omega), hlval, hrval]
      · have hk2 : n + 1 < k := by omega
        rw [hagree k hk2, listSwap_getElem?_ne l (n + 1) j k (by omega) (by omega)]
    obtain ⟨js0, hjs0b, hjs0⟩ := ih (listSwap l (n + 1) j) r hl1nd (by omega)
      (hperm.trans hl1perm.symm) hagree1
    refine ⟨fun m => if m = n + 1 then j else js0 m, ?_, ?_⟩
    · intro m
      by_cases hm : m = n + 1
      · subst hm
        show (if n + 1 = n + 1 then j else js0 (n + 1)) ≤ n + 1
        rw [if_pos rfl]
        omega
      · show (if m = n + 1 then j else js0 m) ≤ m
        rw [if_neg hm]
        exact hjs0b m
    · simp only [fyAux, if_pos rfl]
      rw [fyAux_congr _ js0 n _ (fun m hm1 hm2 => by simp only [if_neg (by omega : ¬ m = n + 1)])]
      exact hjs0

/-! ## Claim C3 (smoothFunction's atanh argument for numwant below 5) -/

/-- Claim C3 is false of the code: for `numwant = 1` (any parsed value in
1..4) the argument `smoothFunction` passes to `math.Atanh` exceeds 1 under
every rounding within the IEEE relative-error bound.  Go documents
`math.Atanh(x) = NaN` for `x > 1`, `NaN` propagates through the remaining
arithmetic, and the final `int(math.Ceil(NaN))` conversion is
implementation-defined (`-2^63` on amd64), so the returned count is not a
non-negative integer. -/
theorem C3_smooth_atanh_arg_exceeds_one (rnd : ℚ → ℚ) (h : RoundOk rnd) :
    1 < smoothAtanhArg rnd 1 := by
  have hf1 : (1 / 10 : ℚ) < float01 := by norm_num [float01]
  have hf2 : float01 < 11 / 100 := by norm_num [float01]
  show 1 < rnd (rnd (rnd (((1 : ℤ) : ℚ) - 5) - float01) / rnd (rnd (((1 : ℤ) : ℚ) - 5) + float01))
  have e0 : (((1 : ℤ) : ℚ) - 5) = -4 := by norm_num
  rw [e0]
  have habs4 : |(-4 : ℚ)| = 4 := by
    rw [abs_of_nonpos] <;> norm_num
  have hb0 := h (-4)
  rw [habs4, abs_le] at hb0
  have hb1 : (-401 / 100 : ℚ) ≤ rnd (-4) := by
    have : (4 / 2 ^ 50 : ℚ) ≤ 1 / 100 := by norm_num
    linarith [hb0.1]
  have hb2 : rnd (-4) ≤ (-399 / 100 : ℚ) := by
    have : (4 / 2 ^ 50 : ℚ) ≤ 1 / 100 := by norm_num
    linarith [hb0.2]
  -- the numerator: rnd (rnd (-4) - float01) ∈ [-4.13, -4.08]
  have hnum0 := h (rnd (-4) - float01)
  have hnumabs : |rnd (-4) - float01| ≤ 5 := by
    rw [abs_le]
    constructor <;> linarith
  have hnumerr : |rnd (rnd (-4) - float01) - (rnd (-4) - float01)| ≤ 1 / 100 := by
    have h5 : |rnd (-4) - float01| / 2 ^ 50 ≤ 5 / 2 ^ 50 := by linarith
    have : (5 / 2 ^ 50 : ℚ) ≤ 1 / 100 := by norm_num
    linarith
  rw [abs_le] at hnumerr
  have hnum1 : (-413 / 100 : ℚ) ≤ rnd (rnd (-4) - float01) := by linarith [hnumerr.1]
  have hnum2 : rnd (rnd (-4) - float01) ≤ (-408 / 100 : ℚ) := by linarith [hnumerr.2]
  -- the denominator: rnd (rnd (-4) + float01) ∈ [-3.92, -3.87]
  have hden0 := h (rnd (-4) + float01)
  have hdenabs : |rnd (-4) + float01| ≤ 5 := by
    rw [abs_le]
    constructor <;> linarith
  have hdenerr : |rnd (rnd (-4) + float01) - (rnd (-4) + float01)| ≤ 1 / 100 := by
    have h5 : |rnd (-4) + float01| / 2 ^ 50 ≤ 5 / 2 ^ 50 := by linarith
    have : (5 / 2 ^ 50 : ℚ) ≤ 1 / 100 := by norm_num
    linarith
  rw [abs_le] at hdenerr
  have hden1 : (-392 / 100 : ℚ) ≤ rnd (rnd (-4) + float01) := by linarith [hdenerr.1]
  have hden2 : rnd (rnd (-4) + float01) ≤ (-387 / 100 : ℚ) := by linarith [hdenerr.2]
  -- the quotient is at least 4.08/3.92 > 1.02 and at most 4.13/3.87 < 1.07
  set num := rnd (rnd (-4) - float01) with hnumdef
  set den := rnd (rnd (-4) + float01) with hdendef
  have hdenneg : den < 0 := by linarith
  have hq : num / den = (-num) / (-den) := by
    rw [neg_div_neg_eq]
  have hDpos : (0 : ℚ) < -den := by linarith
  have hqlow : (102 / 100 : ℚ) ≤ num / den := by
    rw [hq, le_div_iff₀ hDpos]
    nlinarith
  have hqhigh : num / den ≤ (107 / 100 : ℚ) := by
    rw [hq, div_le_iff₀ hDpos]
    nlinarith
  -- final rounding keeps the quotient above 1
  have hfin := h (num / den)
  have hfinabs : |num / den| ≤ 107 / 100 := by
    rw [abs_le]
    constructor <;> linarith
  have hfinerr : |rnd (num / den) - num / den| ≤ 1 / 100 := by
    have h5 : |num / den| / 2 ^ 50 ≤ (107 / 100) / 2 ^ 50 := by linarith
    have : ((107 / 100 : ℚ)) / 2 ^ 50 ≤ 1 / 100 := by norm_num
    linarith
  rw [abs_le] at hfinerr
  linarith [hfinerr.1]

/-- Claim C3 witness: with exact (identity) rounding the atanh argument at
`numwant = 1` is `(-4.1...)/(-3.9...) > 1`. -/
theorem C3_smooth_atanh_arg_witness : 1 < smoothAtanhArg id 1 :=
  C3_smooth_atanh_arg_exceeds_one id (by
    intro q
    simp only [id]
    rw [sub_self, abs_zero]
    positivity)

/-! ## Claim C5 (shuffle and truncate the candidate set) -/

/-- Claim C5: given the candidate set `P` and the count `N`: when
`|P| ≤ N` the reply holds exactly `P`; when `|P| > N` it holds exactly `N`
endpoints, the prefix of a Fisher-Yates shuffle of `P`, all drawn from
`P`; and the shuffle is uniform: over a duplicate-free order (the index
list), each ordering is reached by exactly one sequence of draws, so
uniform draws induce the uniform distribution on orderings. -/
theorem C5_selector_shape (P : List Bytes) (N : ℤ) (js : ℕ → ℕ) (hN : 0 ≤ N) :
    ((P.length : ℤ) ≤ N → sendReplySelect P N js = P)
    ∧ (N < (P.length : ℤ) →
        ((sendReplySelect P N js).length : ℤ) = N
        ∧ sendReplySelect P N js = (fisherYates js P).take N.toNat
        ∧ (fisherYates js P).Perm P
        ∧ ∀ x ∈ sendReplySelect P N js, x ∈ P)
    ∧ (∀ (n : ℕ) (r : List ℕ), r.Perm (List.range n) →
        ∃ cs : ℕ → ℕ, (∀ m, cs m ≤ m) ∧ fisherYates cs (List.range n) = r
          ∧ ∀ cs' : ℕ → ℕ, (∀ m, cs' m ≤ m) → fisherYates cs' (List.range n) = r →
              ∀ m, 1 ≤ m → m ≤ n - 1 → cs' m = cs m) := by
  refine ⟨?_, ?_, ?_⟩
  · intro h
    unfold sendReplySelect
    rw [if_neg (by omega)]
  · intro h
    have htake : sendReplySelect P N js = (fisherYates js P).take N.toNat := by
      unfold sendReplySelect
      rw [if_pos h]
    have hperm := fisherYates_perm js P
    refine ⟨?_, htake, hperm, ?_⟩
    · rw [htake, List.length_take, hperm.length_eq]
      have hle : N.toNat ≤ P.length := by omega
      rw [min_eq_left hle, Int.toNat_of_nonneg hN]
    · intro x hx
      rw [htake] at hx
      exact hperm.subset (List.mem_of_mem_take hx)
  · intro n r hr
    rcases Nat.eq_zero_or_pos n with hn | hn
    · subst hn
      have hrnil : r = [] := by
        have := hr.length_eq
        simpa [List.length_eq_zero] using this
      subst hrnil
      refine ⟨fun _ => 0, fun m => Nat.zero_le m, rfl, ?_⟩
      intro cs' _ _ m h1 h2
      omega
    · have hlen : n - 1 < (List.range n).length := by
        rw [List.length_range]
        omega
      have hagree : ∀ k, n - 1 < k → r[k]? = (List.range n)[k]? := by
        intro k hk
        rw [List.getElem?_eq_none (by rw [hr.length_eq, List.length_range]; omega),
          List.getElem?_eq_none (by rw [List.length_range]; omega)]
      obtain ⟨cs, hcsb, hcs⟩ :=
        fyAux_surj (n - 1) (List.range n) r (List.nodup_range n) hlen hr hagree
      refine ⟨cs, hcsb, ?_, ?_⟩
      · show fyAux cs ((List.range n).length - 1) (List.range n) = r
        rw [List.length_range]
        exact hcs
      · intro cs' hcs'b hfy m h1 h2
        apply fyAux_inj (n - 1) (List.range n) (List.nodup_range n) hlen cs' cs hcs'b hcsb
          ?_ m h1 h2
        have h1' : fyAux cs' ((List.range n).length - 1) (List.range n) = r := hfy
        rw [List.length_range] at h1'
        rw [h1']
        exact hcs.symm

/-- Claim C5 witness: with two candidates and count 5 the reply is the
whole set; with three candidates and count 1 the reply has one entry. -/
theorem C5_selector_shape_witness :
    sendReplySelect [[1], [2]] 5 (fun _ => 0) = [[1], [2]]
    ∧ ((sendReplySelect [[1], [2], [3]] 1 (fun _ => 0)).length : ℤ) = 1 :=
  ⟨(C5_selector_shape [[1], [2]] 5 (fun _ => 0) (by norm_num)).1 (by norm_num),
   ((C5_selector_shape [[1], [2], [3]] 1 (fun _ => 0) (by norm_num)).2.1 (by norm_num)).1⟩

end ETracker
